import Mathlib

/-!
# tcp_server: a line-framed TCP/TLS server

A shallow embedding of `src/tcp_server.go`.

* A Go `string` and a Go `[]byte` are byte sequences (`GoString`, `List Byte`).
* A Go `error` value is `Option Error`; `none` is `nil`.
* A `*Client` is an address (`ClientPtr`) together with the `Client` stored there.
  Callbacks receive the address, as in Go.
* A nil-able `func` value is an `Option`; calling `none` panics.
* A callback is a total transformer of a caller-owned state `σ`; it does not touch
  the connection.  Every call the read loop makes is also recorded, in order, in a
  trace of `Event`s, together with the `conn.Close()` call.
* `net.Conn`, `bufio.Reader`, `net.Listen`, `tls.Listen` and `tls.LoadX509KeyPair`
  belong to the Go standard library; they are modelled from their documented
  behaviour.  A connection delivers a finite list of chunks (one per successful
  `Read`) and then fails every `Read` with a fixed error (`io.EOF` on a clean close).
* The two unbounded `for` loops take their number of iterations as fuel
  (`Client.listen`) or run over the finite list of `Accept` outcomes observed so
  far (`Server.Listen`).  `go client.listen()` is recorded as a spawned task.
* `log.Println` in the constructors writes to the process log only and is left out.
-/

namespace TcpServer

/-! ## Bytes, strings, errors -/

abbrev Byte := Fin 256

/-- Go `string`: an immutable sequence of bytes. -/
structure GoString where
  bytes : List Byte
deriving DecidableEq, Repr

/-- Go string literal: the UTF-8 bytes of the text. -/
def GoString.lit (s : String) : GoString :=
  ⟨s.toUTF8.data.toList.map (fun b => b.val)⟩

/-- Conversion `[]byte(message)`. -/
def GoString.toBytes (s : GoString) : List Byte := s.bytes

/-- Conversion `string(b)`. -/
def GoString.ofBytes (b : List Byte) : GoString := ⟨b⟩

/-- The byte `'\n'`. -/
def newline : Byte := 10

/-- Non-nil Go `error` values that the model distinguishes. -/
inductive Error where
  | EOF
  | other (code : Nat)
deriving DecidableEq, Repr

/-- Reasons for a Go run-time panic that the model distinguishes. -/
inductive Panic where
  | nilFunc
  | nilDeref
deriving DecidableEq, Repr

/-! ## `net.Conn` -/

/-- State of a `net.Conn`.  `incoming` lists the chunks that the next successful
`Read` calls deliver; once it is empty every `Read` fails with `readErr`.  An empty
chunk is a read without progress that the reader retries (`bufio` gives up only after
100 of them in a row, which a network connection does not produce). -/
structure Conn where
  incoming : List (List Byte)
  readErr : Error
  closed : Bool
  closeErr : Option Error
  written : List (List Byte)
  writeRes : List (List Byte) → List Byte → Nat × Option Error

/-- Method `conn.Close()`: the connection's close result, and the closed connection. -/
def Conn.Close (c : Conn) : Option Error × Conn :=
  (c.closeErr, { c with closed := true })

/-- Method `conn.Write(p)`: the payload is handed to the transport, whose answer
(byte count and error) may depend on what was written before. -/
def Conn.Write (c : Conn) (p : List Byte) : (Nat × Option Error) × Conn :=
  (c.writeRes c.written p, { c with written := c.written ++ [p] })

/-! ## `bufio.Reader` -/

/-- Split at the first `delim`: the bytes up to and including it, and the rest. -/
def splitDelim (delim : Byte) : List Byte → Option (List Byte × List Byte)
  | [] => none
  | b :: bs =>
    if b = delim then some ([b], bs)
    else
      match splitDelim delim bs with
      | none => none
      | some (line, rest) => some (b :: line, rest)

/-- State of a `bufio.Reader`: the underlying connection (possibly a nil interface)
and the bytes read from it that no `ReadString` has returned yet. -/
structure Reader where
  rd : Option Conn
  buf : List Byte

/-- Function `bufio.NewReader(conn)`. -/
def NewReader (conn : Option Conn) : Reader :=
  { rd := conn, buf := [] }

/-- Search the buffered bytes for `delim`; while it is absent, refill from the next
chunk of the connection; when the connection fails first, give back everything
buffered together with the error.  Returns the data, the error, the bytes left in
the buffer and the chunks left in the connection. -/
def Reader.scan (delim : Byte) (readErr : Error) :
    List (List Byte) → List Byte →
      (List Byte × Option Error) × (List Byte × List (List Byte))
  | [], buf =>
    match splitDelim delim buf with
    | some (line, rest) => ((line, none), (rest, []))
    | none => ((buf, some readErr), ([], []))
  | chunk :: chunks, buf =>
    match splitDelim delim buf with
    | some (line, rest) => ((line, none), (rest, chunk :: chunks))
    | none => Reader.scan delim readErr chunks (buf ++ chunk)

/-- Method `reader.ReadString(delim)`.  `none` is the nil-pointer panic of reading
from a nil connection. -/
def Reader.ReadString (r : Reader) (delim : Byte) :
    Option ((GoString × Option Error) × Reader) :=
  match r.rd with
  | none =>
    match splitDelim delim r.buf with
    | some (line, rest) => some ((GoString.ofBytes line, none), { r with buf := rest })
    | none => none
  | some c =>
    let out := Reader.scan delim c.readErr c.incoming r.buf
    some ((GoString.ofBytes out.1.1, out.1.2),
      { rd := some { c with incoming := out.2.2 }, buf := out.2.1 })

/-! ## Data model of the package -/

/-- Address of a `Client` value. -/
abbrev ClientPtr := Nat

/-- A loaded `tls.Certificate`. -/
structure Certificate where
  chain : List (List Byte)
  hasPrivateKey : Bool
deriving DecidableEq, Repr

/-- The zero value `tls.Certificate{}`. -/
def Certificate.zero : Certificate := { chain := [], hasPrivateKey := false }

/-- The fields of `tls.Config` that the package sets. -/
structure Config where
  Certificates : List Certificate
deriving DecidableEq, Repr

/-- The struct `Server`. -/
structure Server (σ : Type) where
  address : String
  config : Option Config
  onNewClientCallback : Option (ClientPtr → σ → σ)
  onClientConnectionClosed : Option (ClientPtr → Option Error → σ → σ)
  onNewMessage : Option (ClientPtr → GoString → σ → σ)

/-- The struct `Client`. -/
structure Client (σ : Type) where
  conn : Option Conn
  server : Server σ

/-- One observable action of a read loop. -/
inductive Event where
  | newClient (c : ClientPtr)
  | message (c : ClientPtr) (message : GoString)
  | connClose (c : ClientPtr)
  | disconnect (c : ClientPtr) (err : Option Error)
deriving DecidableEq, Repr

/-- How a run of `listen` ended. -/
inductive Status where
  | outOfFuel
  | returned
  | panicked (reason : Panic)
deriving DecidableEq, Repr

/-- Result of running `listen`: the caller's state after the callbacks, the actions
in the order they happened, the connection as left behind, and how the run ended. -/
structure Run (σ : Type) where
  user : σ
  trace : List Event
  conn : Option Conn
  status : Status

/-! ## `Client` methods -/

/-- The `for` loop of `Client.listen`, lines 29-37. -/
def Client.listenLoop {σ : Type} (p : ClientPtr) (s : Server σ) :
    Nat → Reader → σ → List Event → Run σ
  | 0, r, w, tr => { user := w, trace := tr, conn := r.rd, status := .outOfFuel }
  | fuel + 1, r, w, tr =>
    match r.ReadString newline with
    | none => { user := w, trace := tr, conn := r.rd, status := .panicked .nilDeref }
    | some ((message, err), r1) =>
      match err with
      | some e =>
        match r1.rd with
        | none => { user := w, trace := tr, conn := none, status := .panicked .nilDeref }
        | some conn =>
          let conn1 := conn.Close.2
          let tr1 := tr ++ [Event.connClose p]
          match s.onClientConnectionClosed with
          | none =>
            { user := w, trace := tr1, conn := some conn1, status := .panicked .nilFunc }
          | some f =>
            { user := f p (some e) w, trace := tr1 ++ [Event.disconnect p (some e)],
              conn := some conn1, status := .returned }
      | none =>
        match s.onNewMessage with
        | none => { user := w, trace := tr, conn := r1.rd, status := .panicked .nilFunc }
        | some f =>
          Client.listenLoop p s fuel r1 (f p message w) (tr ++ [Event.message p message])

/-- Method `(c *Client) listen()`, run from caller state `w`. -/
def Client.listen {σ : Type} (p : ClientPtr) (c : Client σ) (fuel : Nat) (w : σ) : Run σ :=
  match c.server.onNewClientCallback with
  | none => { user := w, trace := [], conn := c.conn, status := .panicked .nilFunc }
  | some f =>
    Client.listenLoop p c.server fuel (NewReader c.conn) (f p w) [Event.newClient p]

/-- Result of `Send`, `SendBytes` or `Close`: the returned `error` and the client
afterwards, or a panic. -/
abbrev SendResult (σ : Type) := Except Panic (Option Error × Client σ)

/-- Method `(c *Client) Send(message string) error`. -/
def Client.Send {σ : Type} (c : Client σ) (message : GoString) : SendResult σ :=
  match c.conn with
  | none => .error .nilDeref
  | some conn =>
    let out := conn.Write message.toBytes
    .ok (out.1.2, { c with conn := some out.2 })

/-- Method `(c *Client) SendBytes(b []byte) error`. -/
def Client.SendBytes {σ : Type} (c : Client σ) (b : List Byte) : SendResult σ :=
  match c.conn with
  | none => .error .nilDeref
  | some conn =>
    let out := conn.Write b
    .ok (out.1.2, { c with conn := some out.2 })

/-- Method `(c *Client) Conn() net.Conn`. -/
def Client.Conn {σ : Type} (c : Client σ) : Option Conn := c.conn

/-- Method `(c *Client) Close() error`. -/
def Client.Close {σ : Type} (c : Client σ) : SendResult σ :=
  match c.conn with
  | none => .error .nilDeref
  | some conn => .ok (conn.Close.1, { c with conn := some conn.Close.2 })

/-! ## `Server` methods and constructors -/

/-- Method `(s *Server) OnNewClient(callback)`. -/
def Server.OnNewClient {σ : Type} (s : Server σ)
    (callback : Option (ClientPtr → σ → σ)) : Server σ :=
  { s with onNewClientCallback := callback }

/-- Method `(s *Server) OnClientConnectionClosed(callback)`. -/
def Server.OnClientConnectionClosed {σ : Type} (s : Server σ)
    (callback : Option (ClientPtr → Option Error → σ → σ)) : Server σ :=
  { s with onClientConnectionClosed := callback }

/-- Method `(s *Server) OnNewMessage(callback)`. -/
def Server.OnNewMessage {σ : Type} (s : Server σ)
    (callback : Option (ClientPtr → GoString → σ → σ)) : Server σ :=
  { s with onNewMessage := callback }

/-- Function `New(address)`. -/
def New {σ : Type} (address : String) : Server σ :=
  let server : Server σ :=
    { address := address, config := none, onNewClientCallback := none,
      onClientConnectionClosed := none, onNewMessage := none }
  let server := server.OnNewClient (some (fun _ w => w))
  let server := server.OnNewMessage (some (fun _ _ w => w))
  let server := server.OnClientConnectionClosed (some (fun _ _ w => w))
  server

/-- Function `tls.LoadX509KeyPair(certFile, keyFile)` over a file system `files` that
either yields a parsed pair or fails: on failure the zero certificate comes back
with the error. -/
def LoadX509KeyPair (files : String → String → Except Error Certificate)
    (certFile keyFile : String) : Certificate × Option Error :=
  match files certFile keyFile with
  | .ok cert => (cert, none)
  | .error e => (Certificate.zero, some e)

/-- Function `NewWithTLS(address, certFile, keyFile)`. -/
def NewWithTLS {σ : Type} (files : String → String → Except Error Certificate)
    (address certFile keyFile : String) : Server σ :=
  let cert := (LoadX509KeyPair files certFile keyFile).1
  let config : Config := { Certificates := [cert] }
  let server : Server σ :=
    { address := address, config := some config, onNewClientCallback := none,
      onClientConnectionClosed := none, onNewMessage := none }
  let server := server.OnNewClient (some (fun _ w => w))
  let server := server.OnNewMessage (some (fun _ _ w => w))
  let server := server.OnClientConnectionClosed (some (fun _ _ w => w))
  server

/-- A bound `net.Listener`: the outcomes of its successive `Accept` calls. -/
structure Listener where
  accepts : List (Except Error Conn)

/-- The network as seen by `Server.Listen`: `net.Listen` and `tls.Listen`. -/
structure Net where
  Listen : String → String → Except Error Listener
  tlsListen : String → String → Config → Except Error Listener

/-- Outcome of `Server.Listen`: `log.Fatal` ended the process, or the accept loop
ran and started these read loops with `go`. -/
inductive ListenResult (σ : Type) where
  | fatal
  | serving (spawned : List (ClientPtr × Client σ))

/-- The `for` loop of `Server.Listen`, lines 89-96, over the outcomes of the
successive `Accept` calls; `next` is the address of the next `Client` allocated. -/
def Server.acceptLoop {σ : Type} (s : Server σ) :
    List (Except Error Conn) → ClientPtr → List (ClientPtr × Client σ)
  | [], _ => []
  | accepted :: rest, next =>
    let conn : Option Conn :=
      match accepted with
      | .ok c => some c
      | .error _ => none
    let client : Client σ := { conn := conn, server := s }
    (next, client) :: Server.acceptLoop s rest (next + 1)

/-- Lines 84-96 of `Server.Listen`: what follows the bind. -/
def Server.serve {σ : Type} (s : Server σ) (bound : Except Error Listener) :
    ListenResult σ :=
  match bound with
  | .error _ => .fatal
  | .ok listener => .serving (Server.acceptLoop s listener.accepts 0)

/-- Method `(s *Server) Listen()`. -/
def Server.Listen {σ : Type} (s : Server σ) (net : Net) : ListenResult σ :=
  match s.config with
  | none => Server.serve s (net.Listen "tcp" s.address)
  | some config => Server.serve s (net.tlsListen "tcp" s.address config)

/-! ## Vocabulary of the specification -/

/-- Specification side: the `delim`-terminated segments of `S`, in order, each with
its terminator; bytes after the last `delim` belong to no segment. -/
def segments (delim : Byte) : List Byte → List (List Byte)
  | [] => []
  | b :: bs =>
    if b = delim then [b] :: segments delim bs
    else
      match segments delim bs with
      | [] => []
      | seg :: rest => (b :: seg) :: rest

/-- Specification side: the bytes of `S` after its last `delim`; all of `S` when it
has none. -/
def trailing (delim : Byte) (S : List Byte) : List Byte :=
  (S.reverse.takeWhile (fun b => decide (b ≠ delim))).reverse

/-- The callback invocations of a trace, in order: everything but `conn.Close()`. -/
def dispatches (tr : List Event) : List Event :=
  tr.filter (fun ev => match ev with
    | .connClose _ => false
    | _ => true)

/-- The strings passed to `onNewMessage` in a trace, in order. -/
def messagesOf : List Event → List GoString
  | [] => []
  | .message _ m :: evs => m :: messagesOf evs
  | _ :: evs => messagesOf evs

/-- Whether an event is an `onNewClientCallback` invocation. -/
def Event.isNewClient : Event → Bool
  | .newClient _ => true
  | _ => false

/-- Whether an event is an `onNewMessage` invocation. -/
def Event.isMessage : Event → Bool
  | .message _ _ => true
  | _ => false

/-- Whether an event is an `onClientConnectionClosed` invocation. -/
def Event.isDisconnect : Event → Bool
  | .disconnect _ _ => true
  | _ => false

/-- Apply to `w` the callbacks held in the slots of `s`, as a trace dictates. -/
def replay {σ : Type} (s : Server σ) : List Event → σ → σ
  | [], w => w
  | .newClient p :: evs, w =>
    replay s evs (match s.onNewClientCallback with
      | some f => f p w
      | none => w)
  | .message p m :: evs, w =>
    replay s evs (match s.onNewMessage with
      | some f => f p m w
      | none => w)
  | .connClose _ :: evs, w => replay s evs w
  | .disconnect p e :: evs, w =>
    replay s evs (match s.onClientConnectionClosed with
      | some f => f p e w
      | none => w)

/-- One call of a callback setter, with its argument. -/
inductive SetterCall (σ : Type) where
  | onNewClient (callback : Option (ClientPtr → σ → σ))
  | onClientConnectionClosed (callback : Option (ClientPtr → Option Error → σ → σ))
  | onNewMessage (callback : Option (ClientPtr → GoString → σ → σ))

/-- Perform one setter call on a server. -/
def Server.perform {σ : Type} (s : Server σ) : SetterCall σ → Server σ
  | .onNewClient cb => s.OnNewClient cb
  | .onClientConnectionClosed cb => s.OnClientConnectionClosed cb
  | .onNewMessage cb => s.OnNewMessage cb

/-- The argument of a call when it is a call of `OnNewClient`. -/
def SetterCall.newClientArg {σ : Type} : SetterCall σ → Option (Option (ClientPtr → σ → σ))
  | .onNewClient cb => some cb
  | _ => none

/-- The argument of a call when it is a call of `OnClientConnectionClosed`. -/
def SetterCall.closedArg {σ : Type} :
    SetterCall σ → Option (Option (ClientPtr → Option Error → σ → σ))
  | .onClientConnectionClosed cb => some cb
  | _ => none

/-- The argument of a call when it is a call of `OnNewMessage`. -/
def SetterCall.messageArg {σ : Type} :
    SetterCall σ → Option (Option (ClientPtr → GoString → σ → σ))
  | .onNewMessage cb => some cb
  | _ => none

/-- Specification side: the value selected by the last call that `sel` picks out, or
`init` when it picks none. -/
def lastSet {α β : Type} (sel : β → Option α) (init : α) (calls : List β) : α :=
  ((calls.filterMap sel).getLast?).getD init

/-! ## Sample inputs -/

/-- A live connection that delivers the given chunks, then a clean close; closing it
reports an error of its own. -/
def sampleConn (chunks : List GoString) : Conn :=
  { incoming := chunks.map GoString.toBytes, readErr := Error.EOF, closed := false,
    closeErr := some (Error.other 5), written := [],
    writeRes := fun _ b => (b.length, none) }

/-- A server whose three callbacks append what they are called with to the caller's
state. -/
def sampleServer : Server (List Event) :=
  (((New "localhost:9999").OnNewClient (some (fun c w => w ++ [Event.newClient c]))).OnNewMessage
    (some (fun c m w => w ++ [Event.message c m]))).OnClientConnectionClosed
    (some (fun c e w => w ++ [Event.disconnect c e]))

/-- A file system without the requested certificate files. -/
def noFiles : String → String → Except Error Certificate :=
  fun _ _ => .error (Error.other 2)

/-! ## Line splitting -/

theorem splitDelim_none_iff (d : Byte) (l : List Byte) :
    splitDelim d l = none ↔ d ∉ l := by
  induction l with
  | nil => simp [splitDelim]
  | cons b bs ih =>
    by_cases hb : b = d
    · simp [splitDelim, hb]
    · have hd : ¬ d = b := fun h => hb h.symm
      cases hs : splitDelim d bs with
      | none => simp [splitDelim, hb, hs, hd, ih.mp hs]
      | some lr =>
        have : ¬ d ∉ bs := fun h => by simp [ih.mpr h] at hs
        simp [splitDelim, hb, hs, hd]
        simpa using this

theorem splitDelim_some (d : Byte) (l line rest : List Byte)
    (h : splitDelim d l = some (line, rest)) :
    l = line ++ rest ∧ ∃ body, line = body ++ [d] ∧ d ∉ body := by
  induction l generalizing line rest with
  | nil => simp [splitDelim] at h
  | cons b bs ih =>
    by_cases hb : b = d
    · simp [splitDelim, hb] at h
      obtain ⟨h1, h2⟩ := h
      subst h1 h2
      exact ⟨by simp [hb], [], by simp, by simp⟩
    · cases hs : splitDelim d bs with
      | none => simp [splitDelim, hb, hs] at h
      | some lr =>
        obtain ⟨l1, r1⟩ := lr
        simp [splitDelim, hb, hs] at h
        obtain ⟨h1, h2⟩ := h
        subst h1 h2
        obtain ⟨e1, body, e2, e3⟩ := ih l1 r1 hs
        refine ⟨by simp [e1], b :: body, by simp [e2], ?_⟩
        have hd : ¬ d = b := fun h => hb h.symm
        simp [hd, e3]

theorem splitDelim_append (d : Byte) (l x line rest : List Byte)
    (h : splitDelim d l = some (line, rest)) :
    splitDelim d (l ++ x) = some (line, rest ++ x) := by
  induction l generalizing line rest with
  | nil => simp [splitDelim] at h
  | cons b bs ih =>
    by_cases hb : b = d
    · simp [splitDelim, hb] at h
      obtain ⟨h1, h2⟩ := h
      subst h1 h2
      simp [splitDelim, hb]
    · cases hs : splitDelim d bs with
      | none => simp [splitDelim, hb, hs] at h
      | some lr =>
        obtain ⟨l1, r1⟩ := lr
        simp [splitDelim, hb, hs] at h
        obtain ⟨h1, h2⟩ := h
        subst h1 h2
        simp [splitDelim, hb, ih l1 r1 hs]

theorem splitDelim_count (d : Byte) (l line rest : List Byte)
    (h : splitDelim d l = some (line, rest)) :
    l.count d = rest.count d + 1 := by
  obtain ⟨e1, body, e2, e3⟩ := splitDelim_some d l line rest h
  subst e1 e2
  simp [List.count_eq_zero_of_not_mem e3]

theorem segments_of_split (d : Byte) (l line rest : List Byte)
    (h : splitDelim d l = some (line, rest)) :
    segments d l = line :: segments d rest := by
  induction l generalizing line rest with
  | nil => simp [splitDelim] at h
  | cons b bs ih =>
    by_cases hb : b = d
    · simp [splitDelim, hb] at h
      obtain ⟨h1, h2⟩ := h
      subst h1 h2
      simp [segments, hb]
    · cases hs : splitDelim d bs with
      | none => simp [splitDelim, hb, hs] at h
      | some lr =>
        obtain ⟨l1, r1⟩ := lr
        simp [splitDelim, hb, hs] at h
        obtain ⟨h1, h2⟩ := h
        subst h1 h2
        simp [segments, hb, ih l1 r1 hs]

theorem segments_of_not_mem (d : Byte) (l : List Byte) (h : d ∉ l) :
    segments d l = [] := by
  induction l with
  | nil => rfl
  | cons b bs ih =>
    have hb : ¬ b = d := fun e => h (by simp [e])
    have hbs : d ∉ bs := fun e => h (by simp [e])
    simp [segments, hb, ih hbs]


/-! ## The reader and the read loop -/

theorem scan_found (d : Byte) (e : Error) (chunks : List (List Byte)) (buf line rest : List Byte)
    (h : splitDelim d (buf ++ chunks.flatten) = some (line, rest)) :
    (Reader.scan d e chunks buf).1 = (line, none) ∧
      (Reader.scan d e chunks buf).2.1 ++ (Reader.scan d e chunks buf).2.2.flatten = rest := by
  induction chunks generalizing buf with
  | nil =>
    simp at h
    simp [Reader.scan, h]
  | cons ch cs ih =>
    cases hs : splitDelim d buf with
    | none =>
      simp only [Reader.scan, hs]
      apply ih
      simpa [List.append_assoc] using h
    | some lr =>
      obtain ⟨l1, r1⟩ := lr
      have h2 := splitDelim_append d buf (ch :: cs).flatten l1 r1 hs
      rw [h] at h2
      simp at h2
      obtain ⟨e1, e2⟩ := h2
      subst e1
      simp [Reader.scan, hs, e2]

theorem scan_failed (d : Byte) (e : Error) (chunks : List (List Byte)) (buf : List Byte)
    (h : splitDelim d (buf ++ chunks.flatten) = none) :
    Reader.scan d e chunks buf = ((buf ++ chunks.flatten, some e), ([], [])) := by
  induction chunks generalizing buf with
  | nil =>
    simp at h
    simp [Reader.scan, h]
  | cons ch cs ih =>
    cases hs : splitDelim d buf with
    | none =>
      simp only [Reader.scan, hs]
      rw [ih (buf ++ ch) (by simpa [List.append_assoc] using h)]
      simp
    | some lr =>
      obtain ⟨l1, r1⟩ := lr
      have h2 := splitDelim_append d buf (ch :: cs).flatten l1 r1 hs
      rw [h] at h2
      simp at h2

/-- The complete run of the loop on a live connection whose buffered and pending
bytes are `buf ++ c.incoming.flatten`, once both callbacks it calls are set. -/
theorem listenLoop_run {σ : Type} (p : ClientPtr) (s : Server σ)
    (fm : ClientPtr → GoString → σ → σ) (fc : ClientPtr → Option Error → σ → σ)
    (hm : s.onNewMessage = some fm) (hc : s.onClientConnectionClosed = some fc)
    (fuel : Nat) (c : Conn) (buf : List Byte) (w : σ) (tr : List Event)
    (hfuel : (buf ++ c.incoming.flatten).count newline < fuel) :
    Client.listenLoop p s fuel { rd := some c, buf := buf } w tr =
      { user := fc p (some c.readErr)
          ((segments newline (buf ++ c.incoming.flatten)).foldl
            (fun u seg => fm p (GoString.ofBytes seg) u) w),
        trace := tr ++
          (segments newline (buf ++ c.incoming.flatten)).map
            (fun seg => Event.message p (GoString.ofBytes seg)) ++
          [Event.connClose p, Event.disconnect p (some c.readErr)],
        conn := some { c with incoming := [], closed := true },
        status := .returned } := by
  induction fuel generalizing c buf w tr with
  | zero => omega
  | succ n ih =>
    cases hs : splitDelim newline (buf ++ c.incoming.flatten) with
    | none =>
      have hscan := scan_failed newline c.readErr c.incoming buf hs
      have hseg := segments_of_not_mem newline _ ((splitDelim_none_iff _ _).mp hs)
      simp [Client.listenLoop, Reader.ReadString, hscan, hc, hseg, Conn.Close]
    | some lr =>
      obtain ⟨line, rest⟩ := lr
      obtain ⟨h1, h2⟩ := scan_found newline c.readErr c.incoming buf line rest hs
      have hseg := segments_of_split newline _ line rest hs
      have hcnt := splitDelim_count newline _ line rest hs
      have hfst : (Reader.scan newline c.readErr c.incoming buf).1.2 = none := by rw [h1]
      have hln : (Reader.scan newline c.readErr c.incoming buf).1.1 = line := by rw [h1]
      have key := ih { c with incoming := (Reader.scan newline c.readErr c.incoming buf).2.2 }
        (Reader.scan newline c.readErr c.incoming buf).2.1
        (fm p (GoString.ofBytes line) w) (tr ++ [Event.message p (GoString.ofBytes line)])
        (by simp only [h2]; omega)
      simp only [h2] at key
      simp only [Client.listenLoop, Reader.ReadString, hfst, hln, hm]
      rw [key, hseg]
      simp

/-- Whatever the slots hold and however the run ends, the loop only appends to the
trace, never records a second `newClient`, and changes the caller's state by exactly
the callbacks it recorded. -/
theorem listenLoop_extends {σ : Type} (p : ClientPtr) (s : Server σ) (fuel : Nat)
    (r : Reader) (w : σ) (tr : List Event) :
    ∃ more, (Client.listenLoop p s fuel r w tr).trace = tr ++ more ∧
      (∀ ev ∈ more, ev.isNewClient = false) ∧
      (Client.listenLoop p s fuel r w tr).user = replay s more w := by
  induction fuel generalizing r w tr with
  | zero => exact ⟨[], by simp [Client.listenLoop], by simp, by simp [Client.listenLoop, replay]⟩
  | succ n ih =>
    unfold Client.listenLoop
    cases hr : r.ReadString newline with
    | none => exact ⟨[], by simp, by simp, by simp [replay]⟩
    | some out =>
      obtain ⟨⟨message, err⟩, r1⟩ := out
      cases err with
      | some e =>
        cases hrd : r1.rd with
        | none => exact ⟨[], by simp [hrd], by simp, by simp [hrd, replay]⟩
        | some conn =>
          cases hc : s.onClientConnectionClosed with
          | none =>
            exact ⟨[Event.connClose p], by simp [hrd, hc], by simp [Event.isNewClient],
              by simp [hrd, hc, replay]⟩
          | some f =>
            exact ⟨[Event.connClose p, Event.disconnect p (some e)], by simp [hrd, hc],
              by simp [Event.isNewClient], by simp [hrd, hc, replay]⟩
      | none =>
        cases hm : s.onNewMessage with
        | none => exact ⟨[], by simp [hm], by simp, by simp [hm, replay]⟩
        | some f =>
          obtain ⟨more, h1, h2, h3⟩ := ih r1 (f p message w) (tr ++ [Event.message p message])
          refine ⟨Event.message p message :: more, ?_, ?_, ?_⟩
          · simp [hm, h1]
          · intro ev hev
            rcases List.mem_cons.mp hev with h | h
            · subst h; rfl
            · exact h2 ev h
          · simp [hm, h3, replay]

/-! ## Segments -/

theorem takeWhile_append_stop {α : Type} (q : α → Bool) (x y : List α) (d : α)
    (hd : q d = false) : (x ++ d :: y).takeWhile q = x.takeWhile q := by
  induction x with
  | nil => simp [List.takeWhile, hd]
  | cons a as ih =>
    cases ha : q a <;> simp [List.takeWhile, ha, ih]

theorem trailing_skip (d : Byte) (body rest : List Byte) :
    trailing d (body ++ [d] ++ rest) = trailing d rest := by
  unfold trailing
  have : (body ++ [d] ++ rest).reverse = rest.reverse ++ d :: body.reverse := by simp
  rw [this, takeWhile_append_stop _ _ _ _ (by simp)]

theorem trailing_of_not_mem (d : Byte) (l : List Byte) (h : d ∉ l) : trailing d l = l := by
  unfold trailing
  have : l.reverse.takeWhile (fun b => decide (b ≠ d)) = l.reverse := by
    rw [List.takeWhile_eq_self_iff]
    intro x hx
    have hx2 : x ∈ l := List.mem_reverse.mp hx
    have : x ≠ d := fun e => h (e ▸ hx2)
    simpa using this
  rw [this, List.reverse_reverse]

theorem not_mem_trailing (d : Byte) (l : List Byte) : d ∉ trailing d l := by
  unfold trailing
  intro h
  have h2 := List.mem_takeWhile_imp (List.mem_reverse.mp h)
  simp at h2

/-- The segments and the trailing bytes of `l` are the one way to cut `l` into
pieces that each end at their only `d`, followed by a piece without `d`. -/
theorem segments_spec (d : Byte) (l : List Byte) :
    (segments d l).flatten ++ trailing d l = l ∧
      (segments d l).length = l.count d ∧
      ∀ seg ∈ segments d l, ∃ body, seg = body ++ [d] ∧ d ∉ body := by
  obtain ⟨n, hn⟩ : ∃ n, l.length = n := ⟨_, rfl⟩
  induction n using Nat.strong_induction_on generalizing l with
  | _ n ih =>
    cases hs : splitDelim d l with
    | none =>
      have hd := (splitDelim_none_iff d l).mp hs
      simp [segments_of_not_mem d l hd, trailing_of_not_mem d l hd,
        List.count_eq_zero_of_not_mem hd]
    | some lr =>
      obtain ⟨line, rest⟩ := lr
      obtain ⟨e1, body, e2, e3⟩ := splitDelim_some d l line rest hs
      have hseg := segments_of_split d l line rest hs
      have hcnt := splitDelim_count d l line rest hs
      have hlen : rest.length < n := by
        rw [← hn, e1, e2]; simp; omega
      obtain ⟨i1, i2, i3⟩ := ih rest.length hlen rest rfl
      refine ⟨?_, ?_, ?_⟩
      · rw [hseg]
        conv_lhs => rw [e1, e2, trailing_skip]
        simp only [List.flatten_cons, List.append_assoc]
        rw [i1, e1, e2]
        simp
      · rw [hseg, hcnt, List.length_cons, i2]
      · intro seg hmem
        rw [hseg] at hmem
        rcases List.mem_cons.mp hmem with h | h
        · exact ⟨body, by rw [h, e2], e3⟩
        · exact i3 seg h

/-- The complete run of `listen` on a live connection once all three slots are set. -/
theorem listen_run {σ : Type} (p : ClientPtr) (s : Server σ)
    (fn : ClientPtr → σ → σ) (fm : ClientPtr → GoString → σ → σ)
    (fc : ClientPtr → Option Error → σ → σ)
    (hn : s.onNewClientCallback = some fn) (hm : s.onNewMessage = some fm)
    (hc : s.onClientConnectionClosed = some fc)
    (c : Conn) (fuel : Nat) (w : σ)
    (hfuel : c.incoming.flatten.count newline < fuel) :
    Client.listen p { conn := some c, server := s } fuel w =
      { user := fc p (some c.readErr)
          ((segments newline c.incoming.flatten).foldl
            (fun u seg => fm p (GoString.ofBytes seg) u) (fn p w)),
        trace := [Event.newClient p] ++
          (segments newline c.incoming.flatten).map
            (fun seg => Event.message p (GoString.ofBytes seg)) ++
          [Event.connClose p, Event.disconnect p (some c.readErr)],
        conn := some { c with incoming := [], closed := true },
        status := .returned } := by
  have h := listenLoop_run p s fm fc hm hc fuel c [] (fn p w) [Event.newClient p]
    (by simpa using hfuel)
  simp only [List.nil_append] at h
  simp only [Client.listen, hn, NewReader]
  exact h

theorem messagesOf_append (a b : List Event) :
    messagesOf (a ++ b) = messagesOf a ++ messagesOf b := by
  induction a with
  | nil => rfl
  | cons ev evs ih => cases ev <;> simp [messagesOf, ih]

theorem messagesOf_map (p : ClientPtr) (segs : List (List Byte)) :
    messagesOf (segs.map (fun seg => Event.message p (GoString.ofBytes seg))) =
      segs.map GoString.ofBytes := by
  induction segs with
  | nil => rfl
  | cons seg rest ih => simp [messagesOf, ih]

theorem dispatches_map (p : ClientPtr) (segs : List (List Byte)) :
    dispatches (segs.map (fun seg => Event.message p (GoString.ofBytes seg))) =
      segs.map (fun seg => Event.message p (GoString.ofBytes seg)) := by
  induction segs with
  | nil => rfl
  | cons seg rest ih =>
    simp only [dispatches] at ih
    simp [dispatches, ih]

/-- The shape of the trace of a complete run, seen through `messagesOf` and
`dispatches`. -/
theorem trace_views (p : ClientPtr) (segs : List (List Byte)) (e : Option Error) :
    messagesOf ([Event.newClient p] ++
        segs.map (fun seg => Event.message p (GoString.ofBytes seg)) ++
        [Event.connClose p, Event.disconnect p e]) = segs.map GoString.ofBytes ∧
      dispatches ([Event.newClient p] ++
        segs.map (fun seg => Event.message p (GoString.ofBytes seg)) ++
        [Event.connClose p, Event.disconnect p e]) =
      [Event.newClient p] ++ segs.map (fun seg => Event.message p (GoString.ofBytes seg)) ++
        [Event.disconnect p e] := by
  constructor
  · rw [messagesOf_append, messagesOf_append, messagesOf_map]
    simp [messagesOf]
  · have h := dispatches_map p segs
    simp only [dispatches] at h
    simp [dispatches, List.filter_append, h]

/-! ## The read loop: framing -/

/-- C1. When a live connection delivers the bytes `S` (in any chunking) and then
fails its next read, `listen` returns after dispatching exactly one `onNewMessage`
per newline-terminated segment of `S`, in the order of `S`: the dispatched strings
are the segments, there are as many as `S` has newlines, each ends with its only
newline, and together they are `S` up to a newline-free tail. -/
theorem listen_dispatches_each_segment {σ : Type} (p : ClientPtr) (s : Server σ)
    (fn : ClientPtr → σ → σ) (fm : ClientPtr → GoString → σ → σ)
    (fc : ClientPtr → Option Error → σ → σ)
    (hn : s.onNewClientCallback = some fn) (hm : s.onNewMessage = some fm)
    (hc : s.onClientConnectionClosed = some fc)
    (c : Conn) (fuel : Nat) (w : σ)
    (hfuel : c.incoming.flatten.count newline < fuel) :
    (Client.listen p { conn := some c, server := s } fuel w).status = Status.returned ∧
    messagesOf (Client.listen p { conn := some c, server := s } fuel w).trace =
      (segments newline c.incoming.flatten).map GoString.ofBytes ∧
    dispatches (Client.listen p { conn := some c, server := s } fuel w).trace =
      [Event.newClient p] ++
        (segments newline c.incoming.flatten).map
          (fun seg => Event.message p (GoString.ofBytes seg)) ++
        [Event.disconnect p (some c.readErr)] ∧
    (Client.listen p { conn := some c, server := s } fuel w).user =
      fc p (some c.readErr)
        ((segments newline c.incoming.flatten).foldl
          (fun u seg => fm p (GoString.ofBytes seg) u) (fn p w)) ∧
    (segments newline c.incoming.flatten).length = c.incoming.flatten.count newline ∧
    (∀ seg ∈ segments newline c.incoming.flatten,
      ∃ body, seg = body ++ [newline] ∧ newline ∉ body) ∧
    ∃ tail, newline ∉ tail ∧
      (segments newline c.incoming.flatten).flatten ++ tail = c.incoming.flatten := by
  rw [listen_run p s fn fm fc hn hm hc c fuel w hfuel]
  obtain ⟨h1, h2, h3⟩ := segments_spec newline c.incoming.flatten
  obtain ⟨v1, v2⟩ := trace_views p (segments newline c.incoming.flatten) (some c.readErr)
  exact ⟨rfl, v1, v2, rfl, h2, h3, trailing newline c.incoming.flatten,
    not_mem_trailing _ _, h1⟩

/-- Witness for C1: `"hello\n"` then `"world\n"` then a clean close. -/
theorem listen_dispatches_each_segment_witness :
    (sampleConn [GoString.lit "hello\n", GoString.lit "world\n"]).incoming.flatten.count
        newline < 3 ∧
    dispatches (Client.listen 1
        { conn := some (sampleConn [GoString.lit "hello\n", GoString.lit "world\n"]),
          server := sampleServer } 3 []).trace =
      [Event.newClient 1, Event.message 1 (GoString.lit "hello\n"),
        Event.message 1 (GoString.lit "world\n"), Event.disconnect 1 (some Error.EOF)] := by
  refine ⟨by decide, ?_⟩
  rw [(listen_dispatches_each_segment 1 sampleServer _ _ _ rfl rfl rfl
    (sampleConn [GoString.lit "hello\n", GoString.lit "world\n"]) 3 [] (by decide)).2.2.1]
  decide

/-- C2. The bytes after the last newline of `S` (all of `S` when it has none) reach
no `onNewMessage` call: the dispatched strings are the bytes of `S` in front of that
trailing piece, the trailing piece is not itself dispatched, and when `S` has no
newline the dispatch sequence is new-client, disconnect with no message at all. -/
theorem listen_drops_trailing_bytes {σ : Type} (p : ClientPtr) (s : Server σ)
    (fn : ClientPtr → σ → σ) (fm : ClientPtr → GoString → σ → σ)
    (fc : ClientPtr → Option Error → σ → σ)
    (hn : s.onNewClientCallback = some fn) (hm : s.onNewMessage = some fm)
    (hc : s.onClientConnectionClosed = some fc)
    (c : Conn) (fuel : Nat) (w : σ)
    (hfuel : c.incoming.flatten.count newline < fuel) :
    (Client.listen p { conn := some c, server := s } fuel w).status = Status.returned ∧
    ((messagesOf (Client.listen p { conn := some c, server := s } fuel w).trace).map
        GoString.toBytes).flatten ++ trailing newline c.incoming.flatten =
      c.incoming.flatten ∧
    GoString.ofBytes (trailing newline c.incoming.flatten) ∉
      messagesOf (Client.listen p { conn := some c, server := s } fuel w).trace ∧
    (newline ∉ c.incoming.flatten →
      trailing newline c.incoming.flatten = c.incoming.flatten ∧
      messagesOf (Client.listen p { conn := some c, server := s } fuel w).trace = [] ∧
      dispatches (Client.listen p { conn := some c, server := s } fuel w).trace =
        [Event.newClient p, Event.disconnect p (some c.readErr)] ∧
      (Client.listen p { conn := some c, server := s } fuel w).user =
        fc p (some c.readErr) (fn p w)) := by
  rw [listen_run p s fn fm fc hn hm hc c fuel w hfuel]
  obtain ⟨h1, _, h3⟩ := segments_spec newline c.incoming.flatten
  obtain ⟨v1, v2⟩ := trace_views p (segments newline c.incoming.flatten) (some c.readErr)
  have hmap : ((segments newline c.incoming.flatten).map GoString.ofBytes).map
      GoString.toBytes = segments newline c.incoming.flatten := by
    simp [GoString.toBytes, GoString.ofBytes, Function.comp_def]
  refine ⟨rfl, ?_, ?_, ?_⟩
  · simp only [v1, hmap, h1]
  · simp only [v1]
    intro hmem
    obtain ⟨seg, hseg, heq⟩ := List.mem_map.mp hmem
    have hseg2 : seg = trailing newline c.incoming.flatten := by
      simpa [GoString.ofBytes] using heq
    obtain ⟨body, hb, _⟩ := h3 seg hseg
    exact not_mem_trailing newline c.incoming.flatten (by rw [← hseg2, hb]; simp)
  · intro hno
    have hs := segments_of_not_mem newline _ hno
    simp only [v1, v2, hs]
    exact ⟨trailing_of_not_mem _ _ hno, rfl, rfl, rfl⟩

/-- Witness for C2: `"partial"` then a clean close. -/
theorem listen_drops_trailing_bytes_witness :
    (sampleConn [GoString.lit "partial"]).incoming.flatten.count newline < 1 ∧
    newline ∉ (sampleConn [GoString.lit "partial"]).incoming.flatten ∧
    dispatches (Client.listen 1
        { conn := some (sampleConn [GoString.lit "partial"]), server := sampleServer }
        1 []).trace = [Event.newClient 1, Event.disconnect 1 (some Error.EOF)] ∧
    messagesOf (Client.listen 1
        { conn := some (sampleConn [GoString.lit "partial"]), server := sampleServer }
        1 []).trace = [] :=
  ⟨by decide, by decide,
    ((listen_drops_trailing_bytes 1 sampleServer _ _ _ rfl rfl rfl
      (sampleConn [GoString.lit "partial"]) 1 [] (by decide)).2.2.2 (by decide)).2.2.1,
    ((listen_drops_trailing_bytes 1 sampleServer _ _ _ rfl rfl rfl
      (sampleConn [GoString.lit "partial"]) 1 [] (by decide)).2.2.2 (by decide)).2.1⟩

/-! ## The read loop: lifecycle callbacks -/

/-- C3. Whatever the connection (live or nil), the other two slots and the number
of loop iterations run, `listen` with `onNewClientCallback` set invokes it exactly
once, as the first action: the trace starts with `newClient`, holds no other
`newClient`, and every later call acts on the state that callback produced. -/
theorem listen_new_client_once_first {σ : Type} (p : ClientPtr) (c : Client σ)
    (fn : ClientPtr → σ → σ) (hn : c.server.onNewClientCallback = some fn)
    (fuel : Nat) (w : σ) :
    (∃ rest, (Client.listen p c fuel w).trace = Event.newClient p :: rest ∧
      (∀ ev ∈ rest, ev.isNewClient = false) ∧
      (Client.listen p c fuel w).user = replay c.server rest (fn p w)) ∧
    ((Client.listen p c fuel w).trace.filter Event.isNewClient).length = 1 := by
  obtain ⟨more, h1, h2, h3⟩ :=
    listenLoop_extends p c.server fuel (NewReader c.conn) (fn p w) [Event.newClient p]
  have ht : (Client.listen p c fuel w).trace = Event.newClient p :: more := by
    simp only [Client.listen, hn]
    simpa using h1
  have hu : (Client.listen p c fuel w).user = replay c.server more (fn p w) := by
    simp only [Client.listen, hn]
    exact h3
  refine ⟨⟨more, ht, h2, hu⟩, ?_⟩
  have hf : more.filter Event.isNewClient = [] := by
    rw [List.filter_eq_nil_iff]
    intro ev hev
    simp [h2 ev hev]
  rw [ht]
  simp [List.filter_cons, Event.isNewClient, hf]

/-- Witness for C3: two lines and a clean close. -/
theorem listen_new_client_once_first_witness :
    sampleServer.onNewClientCallback = some (fun c w => w ++ [Event.newClient c]) ∧
    ((Client.listen 1
        { conn := some (sampleConn [GoString.lit "hello\n", GoString.lit "world\n"]),
          server := sampleServer } 3 []).trace.filter Event.isNewClient).length = 1 :=
  ⟨rfl, (listen_new_client_once_first 1
    { conn := some (sampleConn [GoString.lit "hello\n", GoString.lit "world\n"]),
      server := sampleServer } _ rfl 3 []).2⟩

/-- C4. On a live connection whose reads eventually fail, `listen` with all slots
set returns, and its last action is the one `onClientConnectionClosed` call of the
run: no earlier action is a disconnect, every message dispatch comes before it, and
allowing the loop more iterations changes nothing, so no second call can follow. -/
theorem listen_disconnect_once_last {σ : Type} (p : ClientPtr) (s : Server σ)
    (fn : ClientPtr → σ → σ) (fm : ClientPtr → GoString → σ → σ)
    (fc : ClientPtr → Option Error → σ → σ)
    (hn : s.onNewClientCallback = some fn) (hm : s.onNewMessage = some fm)
    (hc : s.onClientConnectionClosed = some fc)
    (c : Conn) (fuel : Nat) (w : σ)
    (hfuel : c.incoming.flatten.count newline < fuel) :
    (Client.listen p { conn := some c, server := s } fuel w).status = Status.returned ∧
    (∃ before, (Client.listen p { conn := some c, server := s } fuel w).trace =
        before ++ [Event.disconnect p (some c.readErr)] ∧
      (∀ ev ∈ before, ev.isDisconnect = false) ∧
      messagesOf before =
        messagesOf (Client.listen p { conn := some c, server := s } fuel w).trace) ∧
    ((Client.listen p { conn := some c, server := s } fuel w).trace.filter
        Event.isDisconnect).length = 1 ∧
    ∀ more, Client.listen p { conn := some c, server := s } (fuel + more) w =
      Client.listen p { conn := some c, server := s } fuel w := by
  have hfilter : ∀ segs : List (List Byte),
      (segs.map (fun seg => Event.message p (GoString.ofBytes seg))).filter
        Event.isDisconnect = [] := by
    intro segs
    rw [List.filter_eq_nil_iff]
    intro ev hev
    obtain ⟨seg, _, rfl⟩ := List.mem_map.mp hev
    simp [Event.isDisconnect]
  refine ⟨?_, ?_, ?_, ?_⟩
  · rw [listen_run p s fn fm fc hn hm hc c fuel w hfuel]
  · rw [listen_run p s fn fm fc hn hm hc c fuel w hfuel]
    refine ⟨[Event.newClient p] ++
      (segments newline c.incoming.flatten).map
        (fun seg => Event.message p (GoString.ofBytes seg)) ++ [Event.connClose p], ?_, ?_, ?_⟩
    · simp
    · intro ev hev
      simp only [List.mem_append, List.mem_singleton, List.mem_map] at hev
      rcases hev with (h | ⟨seg, _, h⟩) | h <;> subst h <;> rfl
    · simp [messagesOf_append, messagesOf]
  · rw [listen_run p s fn fm fc hn hm hc c fuel w hfuel]
    simp [List.filter_append, hfilter, List.filter_cons, Event.isDisconnect]
  · intro more
    rw [listen_run p s fn fm fc hn hm hc c fuel w hfuel,
      listen_run p s fn fm fc hn hm hc c (fuel + more) w (by omega)]

/-- Witness for C4: two lines and a clean close. -/
theorem listen_disconnect_once_last_witness :
    (sampleConn [GoString.lit "hello\n", GoString.lit "world\n"]).incoming.flatten.count
        newline < 3 ∧
    (Client.listen 1
        { conn := some (sampleConn [GoString.lit "hello\n", GoString.lit "world\n"]),
          server := sampleServer } 3 []).status = Status.returned ∧
    ((Client.listen 1
        { conn := some (sampleConn [GoString.lit "hello\n", GoString.lit "world\n"]),
          server := sampleServer } 3 []).trace.filter Event.isDisconnect).length = 1 :=
  ⟨by decide,
    (listen_disconnect_once_last 1 sampleServer _ _ _ rfl rfl rfl
      (sampleConn [GoString.lit "hello\n", GoString.lit "world\n"]) 3 [] (by decide)).1,
    (listen_disconnect_once_last 1 sampleServer _ _ _ rfl rfl rfl
      (sampleConn [GoString.lit "hello\n", GoString.lit "world\n"]) 3 [] (by decide)).2.2.1⟩

/-- C5. When the read fails, `conn.Close()` comes first and the disconnect callback
right after it, as the last two actions; the connection is left closed; the error
handed to the callback is the non-nil error of the failing read, and neither the
trace nor the caller's state depends on what `Close` itself returns. -/
theorem listen_closes_then_reports_read_error {σ : Type} (p : ClientPtr) (s : Server σ)
    (fn : ClientPtr → σ → σ) (fm : ClientPtr → GoString → σ → σ)
    (fc : ClientPtr → Option Error → σ → σ)
    (hn : s.onNewClientCallback = some fn) (hm : s.onNewMessage = some fm)
    (hc : s.onClientConnectionClosed = some fc)
    (c : Conn) (fuel : Nat) (w : σ)
    (hfuel : c.incoming.flatten.count newline < fuel) :
    (∃ before, (Client.listen p { conn := some c, server := s } fuel w).trace =
        before ++ [Event.connClose p, Event.disconnect p (some c.readErr)] ∧
      Event.connClose p ∉ before ∧ ∀ ev ∈ before, ev.isDisconnect = false) ∧
    (∃ after, (Client.listen p { conn := some c, server := s } fuel w).user =
        fc p (some c.readErr) after) ∧
    (Option.map Conn.closed (Client.listen p { conn := some c, server := s } fuel w).conn =
      some true) ∧
    ∀ closeErr : Option Error,
      (Client.listen p { conn := some { c with closeErr := closeErr }, server := s }
          fuel w).trace =
        (Client.listen p { conn := some c, server := s } fuel w).trace ∧
      (Client.listen p { conn := some { c with closeErr := closeErr }, server := s }
          fuel w).user =
        (Client.listen p { conn := some c, server := s } fuel w).user := by
  refine ⟨?_, ?_, ?_, ?_⟩
  · rw [listen_run p s fn fm fc hn hm hc c fuel w hfuel]
    refine ⟨[Event.newClient p] ++
      (segments newline c.incoming.flatten).map
        (fun seg => Event.message p (GoString.ofBytes seg)), ?_, ?_, ?_⟩
    · simp
    · simp
    · intro ev hev
      simp only [List.mem_append, List.mem_singleton, List.mem_map] at hev
      rcases hev with h | ⟨seg, _, h⟩ <;> subst h <;> rfl
  · rw [listen_run p s fn fm fc hn hm hc c fuel w hfuel]
    exact ⟨_, rfl⟩
  · rw [listen_run p s fn fm fc hn hm hc c fuel w hfuel]
    rfl
  · intro closeErr
    rw [listen_run p s fn fm fc hn hm hc c fuel w hfuel,
      listen_run p s fn fm fc hn hm hc { c with closeErr := closeErr } fuel w hfuel]
    exact ⟨rfl, rfl⟩

/-- Witness for C5: the read fails with `EOF` while `Close` reports another error. -/
theorem listen_closes_then_reports_read_error_witness :
    (sampleConn [GoString.lit "ping\n"]).incoming.flatten.count newline < 2 ∧
    (sampleConn [GoString.lit "ping\n"]).closeErr = some (Error.other 5) ∧
    ∃ before, (Client.listen 1
        { conn := some (sampleConn [GoString.lit "ping\n"]), server := sampleServer }
        2 []).trace = before ++ [Event.connClose 1, Event.disconnect 1 (some Error.EOF)] ∧
      Event.connClose 1 ∉ before ∧ ∀ ev ∈ before, ev.isDisconnect = false :=
  ⟨by decide, rfl,
    (listen_closes_then_reports_read_error 1 sampleServer _ _ _ rfl rfl rfl
      (sampleConn [GoString.lit "ping\n"]) 2 [] (by decide)).1⟩

/-! ## The accept loop -/

/-- C6 (the code at a failing accept). An `Accept` that returns an error makes the
loop build a `Client` around the nil connection and start its read loop all the
same; that read loop invokes `onNewClientCallback` and then panics on the nil
connection.  Shown for a server fresh from `New`. -/
theorem accept_error_starts_read_loop {σ : Type} (address : String) (e : Error)
    (rest : List (Except Error Conn)) (next : ClientPtr) (fuel : Nat) (w : σ) :
    Server.acceptLoop (New address : Server σ) (Except.error e :: rest) next =
      (next, { conn := none, server := New address }) ::
        Server.acceptLoop (New address : Server σ) rest (next + 1) ∧
    (Client.listen next { conn := none, server := (New address : Server σ) }
        (fuel + 1) w).trace = [Event.newClient next] ∧
    (Client.listen next { conn := none, server := (New address : Server σ) }
        (fuel + 1) w).status = Status.panicked Panic.nilDeref := by
  refine ⟨rfl, ?_, ?_⟩ <;>
    simp [Client.listen, New, Server.OnNewClient, Server.OnNewMessage,
      Server.OnClientConnectionClosed, Client.listenLoop, Reader.ReadString, NewReader,
      splitDelim]

/-! ## Sending -/

/-- C7. On a live connection `Send(message)` performs one `Write` whose payload is
the bytes of `message`, nothing added, and returns that write's error; `SendBytes(b)`
does so for `b`; hence `Send(message)` and `SendBytes([]byte(message))` agree, also
on a nil connection. -/
theorem send_writes_verbatim {σ : Type} (s : Server σ) (conn : Conn)
    (message : GoString) (b : List Byte) (c : Client σ) :
    Client.Send { conn := some conn, server := s } message =
      Except.ok ((conn.writeRes conn.written message.bytes).2,
        { conn := some { conn with written := conn.written ++ [message.bytes] },
          server := s }) ∧
    Client.SendBytes { conn := some conn, server := s } b =
      Except.ok ((conn.writeRes conn.written b).2,
        { conn := some { conn with written := conn.written ++ [b] }, server := s }) ∧
    Client.Send c message = Client.SendBytes c message.toBytes := by
  refine ⟨rfl, rfl, ?_⟩
  cases c with
  | mk cn sv => cases cn <;> rfl

/-! ## Constructors and setters -/

/-- C8. For every address `New` yields a server with that address, no TLS
configuration and three set slots that leave the caller's state alone; a read loop
over such a server, on any connection and for any number of iterations, never
changes the caller's state and never panics on an unset callback, and on a live
connection it returns. -/
theorem New_defaults {σ : Type} (address : String) :
    (New address : Server σ).address = address ∧
    (New address : Server σ).config = none ∧
    (New address : Server σ).onNewClientCallback = some (fun _ w => w) ∧
    (New address : Server σ).onNewMessage = some (fun _ _ w => w) ∧
    (New address : Server σ).onClientConnectionClosed = some (fun _ _ w => w) ∧
    (∀ (p : ClientPtr) (conn : Option Conn) (fuel : Nat) (w : σ),
      (Client.listen p { conn := conn, server := New address } fuel w).user = w ∧
      (Client.listen p { conn := conn, server := New address } fuel w).status ≠
        Status.panicked Panic.nilFunc) ∧
    ∀ (p : ClientPtr) (c : Conn) (fuel : Nat) (w : σ),
      c.incoming.flatten.count newline < fuel →
      (Client.listen p { conn := some c, server := New address } fuel w).status =
        Status.returned := by
  refine ⟨rfl, rfl, rfl, rfl, rfl, ?_, ?_⟩
  · intro p conn fuel w
    have key : ∀ (n : Nat) (r : Reader) (tr : List Event),
        (Client.listenLoop p (New address : Server σ) n r w tr).user = w ∧
        (Client.listenLoop p (New address : Server σ) n r w tr).status ≠
          Status.panicked Panic.nilFunc := by
      intro n
      induction n with
      | zero => intro r tr; simp [Client.listenLoop]
      | succ k ih =>
        intro r tr
        unfold Client.listenLoop
        cases hr : r.ReadString newline with
        | none => simp
        | some out =>
          obtain ⟨⟨message, err⟩, r1⟩ := out
          cases err with
          | some e =>
            cases hrd : r1.rd with
            | none => simp [hrd]
            | some cn =>
              simp [hrd, New, Server.OnNewClient, Server.OnNewMessage,
                Server.OnClientConnectionClosed]
          | none =>
            have h := ih r1 (tr ++ [Event.message p message])
            simpa [New, Server.OnNewClient, Server.OnNewMessage,
              Server.OnClientConnectionClosed] using h
    have h := key fuel (NewReader conn) [Event.newClient p]
    simpa [Client.listen, New, Server.OnNewClient, Server.OnNewMessage,
      Server.OnClientConnectionClosed] using h
  · intro p c fuel w hfuel
    rw [listen_run p (New address) _ _ _ rfl rfl rfl c fuel w hfuel]

/-- Witness for C8: a read loop of a fresh server over one line and a fragment. -/
theorem New_defaults_witness :
    (sampleConn [GoString.lit "ping\n", GoString.lit "pa"]).incoming.flatten.count
        newline < 2 ∧
    (Client.listen 1
        { conn := some (sampleConn [GoString.lit "ping\n", GoString.lit "pa"]),
          server := (New "localhost:9999" : Server Nat) } 2 7).status = Status.returned ∧
    (Client.listen 1
        { conn := some (sampleConn [GoString.lit "ping\n", GoString.lit "pa"]),
          server := (New "localhost:9999" : Server Nat) } 2 7).user = 7 :=
  ⟨by decide,
    (New_defaults "localhost:9999").2.2.2.2.2.2 1
      (sampleConn [GoString.lit "ping\n", GoString.lit "pa"]) 2 7 (by decide),
    ((New_defaults "localhost:9999").2.2.2.2.2.1 1
      (some (sampleConn [GoString.lit "ping\n", GoString.lit "pa"])) 2 7).1⟩

/-- C9. `NewWithTLS` yields a server whatever the outcome of loading the key pair:
it has the given address, a TLS configuration with exactly one certificate (the one
loaded, or the zero certificate when loading failed, the error being dropped),
three set slots that leave the caller's state alone, and `Listen` on it binds
through `tls.Listen`, whatever `net.Listen` would do. -/
theorem NewWithTLS_always_builds {σ : Type}
    (files : String → String → Except Error Certificate)
    (address certFile keyFile : String) :
    (NewWithTLS files address certFile keyFile : Server σ).address = address ∧
    (NewWithTLS files address certFile keyFile : Server σ).config =
      some { Certificates := [(LoadX509KeyPair files certFile keyFile).1] } ∧
    (∀ cert, files certFile keyFile = Except.ok cert →
      (NewWithTLS files address certFile keyFile : Server σ).config =
        some { Certificates := [cert] }) ∧
    (∀ e, files certFile keyFile = Except.error e →
      (LoadX509KeyPair files certFile keyFile).2 = some e ∧
      (NewWithTLS files address certFile keyFile : Server σ).config =
        some { Certificates := [Certificate.zero] }) ∧
    (NewWithTLS files address certFile keyFile : Server σ).onNewClientCallback =
      some (fun _ w => w) ∧
    (NewWithTLS files address certFile keyFile : Server σ).onNewMessage =
      some (fun _ _ w => w) ∧
    (NewWithTLS files address certFile keyFile : Server σ).onClientConnectionClosed =
      some (fun _ _ w => w) ∧
    ∀ net : Net,
      Server.Listen (NewWithTLS files address certFile keyFile : Server σ) net =
        Server.serve (NewWithTLS files address certFile keyFile : Server σ)
          (net.tlsListen "tcp" address
            { Certificates := [(LoadX509KeyPair files certFile keyFile).1] }) := by
  refine ⟨rfl, rfl, ?_, ?_, rfl, rfl, rfl, fun _ => rfl⟩
  · intro cert h
    simp [NewWithTLS, LoadX509KeyPair, h, Server.OnNewClient, Server.OnNewMessage,
      Server.OnClientConnectionClosed]
  · intro e h
    simp [NewWithTLS, LoadX509KeyPair, h, Server.OnNewClient, Server.OnNewMessage,
      Server.OnClientConnectionClosed]

/-- Witness for C9: the certificate files do not exist. -/
theorem NewWithTLS_always_builds_witness :
    noFiles "cert.pem" "key.pem" = Except.error (Error.other 2) ∧
    (LoadX509KeyPair noFiles "cert.pem" "key.pem").2 = some (Error.other 2) ∧
    (NewWithTLS noFiles "localhost:9999" "cert.pem" "key.pem" : Server Nat).config =
      some { Certificates := [Certificate.zero] } :=
  ⟨rfl, (NewWithTLS_always_builds noFiles "localhost:9999" "cert.pem" "key.pem").2.2.2.1
    (Error.other 2) rfl⟩

theorem lastSet_cons {α β : Type} (sel : β → Option α) (init : α) (c : β) (cs : List β) :
    lastSet sel init (c :: cs) = lastSet sel ((sel c).getD init) cs := by
  unfold lastSet
  cases hc : sel c with
  | none => simp [List.filterMap_cons, hc]
  | some a =>
    simp only [List.filterMap_cons, hc, Option.getD_some]
    cases hl : (List.filterMap sel cs).getLast? with
    | none =>
      have : List.filterMap sel cs = [] := List.getLast?_eq_none_iff.mp hl
      simp [this]
    | some x =>
      rw [List.getLast?_cons, hl]
      simp

/-- A field that every call either overwrites with the selected argument or leaves
alone holds, after a sequence of calls, the last selected argument. -/
theorem foldl_lastSet {α β γ : Type} (step : γ → β → γ) (field : γ → α)
    (sel : β → Option α) (hstep : ∀ s c, field (step s c) = (sel c).getD (field s))
    (calls : List β) (s : γ) :
    field (calls.foldl step s) = lastSet sel (field s) calls := by
  induction calls generalizing s with
  | nil => simp [lastSet]
  | cons c cs ih => rw [List.foldl_cons, ih, hstep, lastSet_cons]

theorem foldl_unchanged {α β γ : Type} (step : γ → β → γ) (field : γ → α)
    (hstep : ∀ s c, field (step s c) = field s) (calls : List β) (s : γ) :
    field (calls.foldl step s) = field s := by
  induction calls generalizing s with
  | nil => rfl
  | cons c cs ih => rw [List.foldl_cons, ih, hstep]

/-- C10. Each setter stores its argument in its own slot and leaves the address,
the TLS configuration and the other two slots as they were; after any sequence of
setter calls on a server, each slot holds the argument of the last call of its
setter, or what the server held before when there was none (the no-op for a server
fresh from `New`), and a read loop over the result changes the caller's state by
exactly the callbacks in these slots. -/
theorem setters_replace_own_slot {σ : Type} (s : Server σ)
    (cbn : Option (ClientPtr → σ → σ)) (cbm : Option (ClientPtr → GoString → σ → σ))
    (cbc : Option (ClientPtr → Option Error → σ → σ)) (calls : List (SetterCall σ)) :
    (s.OnNewClient cbn =
      { address := s.address, config := s.config, onNewClientCallback := cbn,
        onClientConnectionClosed := s.onClientConnectionClosed,
        onNewMessage := s.onNewMessage }) ∧
    (s.OnNewMessage cbm =
      { address := s.address, config := s.config,
        onNewClientCallback := s.onNewClientCallback,
        onClientConnectionClosed := s.onClientConnectionClosed, onNewMessage := cbm }) ∧
    (s.OnClientConnectionClosed cbc =
      { address := s.address, config := s.config,
        onNewClientCallback := s.onNewClientCallback,
        onClientConnectionClosed := cbc, onNewMessage := s.onNewMessage }) ∧
    (calls.foldl Server.perform s =
      { address := s.address, config := s.config,
        onNewClientCallback := lastSet SetterCall.newClientArg s.onNewClientCallback calls,
        onClientConnectionClosed :=
          lastSet SetterCall.closedArg s.onClientConnectionClosed calls,
        onNewMessage := lastSet SetterCall.messageArg s.onNewMessage calls }) ∧
    (∀ address : String,
      (calls.foldl Server.perform (New address : Server σ)).onNewClientCallback =
        lastSet SetterCall.newClientArg (some (fun _ w => w)) calls ∧
      (calls.foldl Server.perform (New address : Server σ)).onNewMessage =
        lastSet SetterCall.messageArg (some (fun _ _ w => w)) calls ∧
      (calls.foldl Server.perform (New address : Server σ)).onClientConnectionClosed =
        lastSet SetterCall.closedArg (some (fun _ _ w => w)) calls) ∧
    ∀ (p : ClientPtr) (conn : Option Conn) (fuel : Nat) (w : σ),
      (Client.listen p { conn := conn, server := calls.foldl Server.perform s } fuel w).user =
        replay
          { address := s.address, config := s.config,
            onNewClientCallback :=
              lastSet SetterCall.newClientArg s.onNewClientCallback calls,
            onClientConnectionClosed :=
              lastSet SetterCall.closedArg s.onClientConnectionClosed calls,
            onNewMessage := lastSet SetterCall.messageArg s.onNewMessage calls }
          (Client.listen p { conn := conn, server := calls.foldl Server.perform s }
            fuel w).trace w := by
  have hfold : ∀ s0 : Server σ, calls.foldl Server.perform s0 =
      { address := s0.address, config := s0.config,
        onNewClientCallback := lastSet SetterCall.newClientArg s0.onNewClientCallback calls,
        onClientConnectionClosed :=
          lastSet SetterCall.closedArg s0.onClientConnectionClosed calls,
        onNewMessage := lastSet SetterCall.messageArg s0.onNewMessage calls } := by
    intro s0
    have h1 := foldl_unchanged Server.perform Server.address
      (fun t c => by cases c <;> rfl) calls s0
    have h2 := foldl_unchanged Server.perform Server.config
      (fun t c => by cases c <;> rfl) calls s0
    have h3 := foldl_lastSet Server.perform Server.onNewClientCallback
      SetterCall.newClientArg (fun t c => by cases c <;> rfl) calls s0
    have h4 := foldl_lastSet Server.perform Server.onClientConnectionClosed
      SetterCall.closedArg (fun t c => by cases c <;> rfl) calls s0
    have h5 := foldl_lastSet Server.perform Server.onNewMessage
      SetterCall.messageArg (fun t c => by cases c <;> rfl) calls s0
    cases hs : calls.foldl Server.perform s0 with
    | mk a cf n c m =>
      rw [hs] at h1 h2 h3 h4 h5
      simp only at h1 h2 h3 h4 h5
      rw [h1, h2, h3, h4, h5]
  refine ⟨rfl, rfl, rfl, hfold s, ?_, ?_⟩
  · intro address
    rw [hfold (New address)]
    exact ⟨rfl, rfl, rfl⟩
  · intro p conn fuel w
    rw [← hfold s]
    cases hn : (calls.foldl Server.perform s).onNewClientCallback with
    | none => simp [Client.listen, hn, replay]
    | some f =>
      obtain ⟨more, h1, _, h3⟩ := listenLoop_extends p (calls.foldl Server.perform s) fuel
        (NewReader conn) (f p w) [Event.newClient p]
      simp only [Client.listen, hn]
      rw [h3, h1]
      simp [replay, hn]

/-- Witness for C10: `OnNewMessage` called twice, then a read loop over one line. -/
theorem setters_replace_own_slot_witness :
    (Client.listen 1
      { conn := some (sampleConn [GoString.lit "ping\n"]),
        server := [SetterCall.onNewMessage (some (fun _ _ w => w + 1)),
          SetterCall.onNewMessage (some (fun _ _ w => w + 10))].foldl Server.perform
            (New "localhost:9999" : Server Nat) } 2 0).user = 10 := by
  rw [(setters_replace_own_slot (New "localhost:9999" : Server Nat) none none none
    [SetterCall.onNewMessage (some (fun _ _ w => w + 1)),
      SetterCall.onNewMessage (some (fun _ _ w => w + 10))]).2.2.2.2.2 1
    (some (sampleConn [GoString.lit "ping\n"])) 2 0]
  decide

end TcpServer
